import Mathlib

/-!
Verification of the retrieval core of the regulatory-search-system repository.

The Python source is shallowly embedded: texts are lists of characters,
the on-disk catalog and embedding store are association lists keyed by
document id, similarity scores are rationals (abstracting the floats
produced by the embedding model), and the embedding model itself is an
abstract parameter.  The `while` loop of `EmbeddingsManager.chunk_text`
is embedded with explicit fuel, so that its (non-)termination can be
stated and proved.
-/

namespace RegSearch

/-- Clamp an integer index the way a Python slice does for a string of
length `n`: negative indices count from the end (saturating at 0),
indices past the end saturate at `n`. -/
def pyIndex (n : Nat) (i : Int) : Nat :=
  if i < 0 then ((n : Int) + i).toNat else min i.toNat n

/-- Python string slice `s[a:b]` on a text represented as a list of
characters. -/
def pySlice (s : List Char) (a b : Int) : List Char :=
  (s.take (pyIndex s.length b)).drop (pyIndex s.length a)

/-- The body of the `while start < len(text)` loop of
`EmbeddingsManager.chunk_text` (src/embeddings_manager.py, lines 35-43),
embedded with explicit fuel.  `start` is an integer, as in Python, since
`chunk_size - chunk_overlap` may be negative; the accumulated `chunks`
list is threaded through.  A `none` result means the fuel ran out, i.e.
the Python loop has not terminated within `fuel` iterations. -/
def chunkTextLoop (cs co : Nat) (text : List Char) :
    Nat → Int → List (List Char) → Option (List (List Char))
  | 0, _, _ => none
  | fuel + 1, start, chunks =>
    if start < (text.length : Int) then
      let e : Int := start + (cs : Int)
      let chunks' := chunks ++ [pySlice text start e]
      if (text.length : Int) ≤ e then
        some chunks'
      else
        chunkTextLoop cs co text fuel (start + ((cs : Int) - (co : Int))) chunks'
    else
      some chunks

/-- `EmbeddingsManager.chunk_text(text)` with `chunk_size = cs` and
`chunk_overlap = co`.  The loop is given `text.length + 1` units of fuel,
which is enough for every terminating run (each iteration either ends the
loop or advances `start` by `cs - co ≥ 1` when `co < cs`), so `none`
faithfully marks the configurations on which the Python loop diverges. -/
def chunk_text (cs co : Nat) (text : List Char) : Option (List (List Char)) :=
  chunkTextLoop cs co text (text.length + 1) 0 []

/-- Reassemble a chunk list: the first chunk is kept whole and each
subsequent chunk contributes everything after its leading `co`-character
overlap. -/
def joinOverlap (co : Nat) : List (List Char) → List Char
  | [] => []
  | c :: rest => c ++ (rest.map (fun d => d.drop co)).flatten

theorem pyIndex_natCast (n a : Nat) : pyIndex n (a : Int) = min a n := by
  simp [pyIndex]

theorem pySlice_natCast (t : List Char) (a b : Nat) (ha : a ≤ t.length) :
    pySlice t (a : Int) (b : Int) = (t.drop a).take (b - a) := by
  unfold pySlice
  rw [pyIndex_natCast, pyIndex_natCast, Nat.min_eq_left ha, List.drop_take]
  rcases Nat.le_total b t.length with hb | hb
  · rw [Nat.min_eq_left hb]
  · rw [Nat.min_eq_right hb,
      List.take_of_length_le (by simp only [List.length_drop]; omega),
      List.take_of_length_le (by simp only [List.length_drop]; omega)]

/-- Loop invariant for `chunk_text` when `overlap < size`: from any start
offset inside the text, with enough fuel, the loop succeeds; the first
chunk produced has length `min cs (remaining text)`, the chunks rebuild
the remaining text via `joinOverlap`, and their number is the ceiling of
`(remaining - co) / (cs - co)`. -/
theorem chunkTextLoop_spec (cs co : Nat) (text : List Char) (hco : co < cs) :
    ∀ (fuel start : Nat) (acc : List (List Char)),
      start < text.length → text.length ≤ fuel + start →
      ∃ h t, chunkTextLoop cs co text fuel (start : Int) acc = some (acc ++ h :: t) ∧
        h.length = min cs (text.length - start) ∧
        joinOverlap co (h :: t) = text.drop start ∧
        (h :: t).length = (text.length - start - co - 1) / (cs - co) + 1 := by
  intro fuel
  induction fuel with
  | zero => intro start acc h1 h2; omega
  | succ n ih =>
    intro start acc hstart hfuel
    have hlt : (start : Int) < (text.length : Int) := by exact_mod_cast hstart
    have hcast : (start : Int) + (cs : Int) = ((start + cs : Nat) : Int) := by push_cast; ring
    have hchunk : pySlice text (start : Int) ((start : Int) + (cs : Int)) =
        (text.drop start).take cs := by
      rw [hcast, pySlice_natCast text start (start + cs) (Nat.le_of_lt hstart)]
      congr 1
      omega
    by_cases hA : text.length ≤ start + cs
    · have hle : (text.length : Int) ≤ (start : Int) + (cs : Int) := by
        rw [hcast]; exact_mod_cast hA
      refine ⟨(text.drop start).take cs, [], ?_, ?_, ?_, ?_⟩
      · simp only [chunkTextLoop, if_pos hlt, if_pos hle, hchunk]
      · simp [List.length_take]
      · have : (text.drop start).length ≤ cs := by simp; omega
        simp [joinOverlap, List.take_of_length_le this]
      · have : text.length - start - co - 1 < cs - co := by omega
        simp [Nat.div_eq_of_lt this]
    · have hnle : ¬ (text.length : Int) ≤ (start : Int) + (cs : Int) := by
        rw [hcast]; exact_mod_cast hA
      have hstep : (start : Int) + ((cs : Int) - (co : Int)) =
          ((start + (cs - co) : Nat) : Int) := by
        push_cast [Nat.cast_sub (Nat.le_of_lt hco)]; ring
      obtain ⟨h', t', heq, hlen', hjoin', hcount'⟩ :=
        ih (start + (cs - co)) (acc ++ [(text.drop start).take cs])
          (by omega) (by omega)
      refine ⟨(text.drop start).take cs, h' :: t', ?_, ?_, ?_, ?_⟩
      · simp only [chunkTextLoop, if_pos hlt, if_neg hnle, hchunk, hstep]
        rw [heq, List.append_assoc]
        rfl
      · simp [List.length_take]
      · have hh'len : co ≤ h'.length := by
          rw [hlen']; omega
        have hflat : ((h' :: t').map (fun d => d.drop co)).flatten =
            ((h' ++ (t'.map (fun d => d.drop co)).flatten).drop co) := by
          simp only [List.map_cons, List.flatten_cons]
          rw [List.drop_append_of_le_length hh'len]
        have hjoin'' : h' ++ (t'.map (fun d => d.drop co)).flatten =
            text.drop (start + (cs - co)) := by
          simpa [joinOverlap] using hjoin'
        simp only [joinOverlap, hflat, hjoin'']
        rw [List.drop_drop]
        have harith : start + (cs - co) + co = start + cs := by omega
        rw [harith]
        rw [show text.drop (start + cs) = (text.drop start).drop cs from
          (List.drop_drop cs start text).symm]
        exact List.take_append_drop cs (text.drop start)
      · simp only [List.length_cons] at hcount' ⊢
        rw [hcount']
        have harith : text.length - start - co - 1 =
            (text.length - (start + (cs - co)) - co - 1) + (cs - co) := by omega
        rw [harith, Nat.add_div_right _ (by omega)]

/-- Claim C2: for `0 < length(T)`, `0 < L` and `0 ≤ O < L`, `chunk_text`
succeeds, its chunks reconstruct the text exactly when each subsequent
chunk's leading `O`-character overlap is removed, and the number of
chunks is `⌈(len(T) - O) / (L - O)⌉` when `len(T) > L` and 1 when
`len(T) ≤ L` (the ceiling written in natural-number arithmetic). -/
theorem C2_chunk_text_reconstruction_and_count
    (cs co : Nat) (text : List Char)
    (htext : 0 < text.length) (hco : co < cs) :
    ∃ l, chunk_text cs co text = some l ∧
      joinOverlap co l = text ∧
      l.length = if text.length ≤ cs then 1
        else (text.length - co + (cs - co) - 1) / (cs - co) := by
  obtain ⟨h, t, heq, hlen, hjoin, hcount⟩ :=
    chunkTextLoop_spec cs co text hco (text.length + 1) 0 [] htext (by omega)
  refine ⟨h :: t, ?_, ?_, ?_⟩
  · unfold chunk_text
    simpa using heq
  · simpa using hjoin
  · rw [hcount]
    by_cases hle : text.length ≤ cs
    · rw [if_pos hle, Nat.div_eq_of_lt (by omega)]
    · rw [if_neg hle]
      have harith : text.length - co + (cs - co) - 1 =
          (text.length - 0 - co - 1) + (cs - co) := by omega
      rw [harith, Nat.add_div_right _ (by omega)]

/-- Witness for C2 at the spec's own scenario: `"abcdefghij"` with
`length = 4`, `overlap = 1`. -/
theorem C2_chunk_text_witness :
    ∃ l, chunk_text 4 1 ("abcdefghij".toList) = some l ∧
      joinOverlap 1 l = "abcdefghij".toList ∧
      l.length = if ("abcdefghij".toList).length ≤ 4 then 1
        else (("abcdefghij".toList).length - 1 + (4 - 1) - 1) / (4 - 1) :=
  C2_chunk_text_reconstruction_and_count 4 1 ("abcdefghij".toList)
    (by decide) (by decide)

/-- On the failing configuration `chunk_size = 2, chunk_overlap = 2` the
loop never moves: `start` stays at 0 forever. -/
theorem chunkTextLoop_overlap_eq_size_stuck :
    ∀ (fuel : Nat) (acc : List (List Char)),
      chunkTextLoop 2 2 ("abcde".toList) fuel 0 acc = none := by
  intro fuel
  induction fuel with
  | zero => intro acc; rfl
  | succ n ih =>
    intro acc
    have h5 : ("abcde".toList).length = 5 := by decide
    simp only [chunkTextLoop, h5]
    norm_num
    simpa using ih (acc ++ [pySlice ("abcde".toList) 0 2])

/-- Claim C1: the spec requires the chunking step `length - overlap` to be
clamped to at least 1 so that `chunk_text` terminates for every
configuration with `length > 0`; the code does not clamp, and with
`chunk_size = 2, chunk_overlap = 2` on the five-character text `"abcde"`
the loop makes no forward progress: no amount of fuel makes it produce a
result. -/
theorem C1_chunk_text_no_clamp_diverges :
    ¬ ∃ (fuel : Nat) (acc r : List (List Char)),
        chunkTextLoop 2 2 ("abcde".toList) fuel 0 acc = some r := by
  rintro ⟨fuel, acc, r, h⟩
  rw [chunkTextLoop_overlap_eq_size_stuck fuel acc] at h
  exact Option.noConfusion h

/-! ### Embedding store, similarity search and the retrieval engine

Similarity scores are rationals, abstracting the floats of the Python
code; the embedding model is an abstract `encode` capability returning
`Except` (its failure is a raised exception in Python), and cosine
similarity is an abstract binary map `cos` on an abstract vector type
`Emb`.  The embeddings directory and the catalog directory are
association lists keyed by document id; a `none` payload stands for a
file whose unpickling/JSON parse raises (the soft-failure path). -/

/-- One entry of the list built by
`EmbeddingsManager.search_similar_chunks`. -/
structure ChunkHit where
  document_id : String
  chunk_index : Nat
  chunk_text : List Char
  similarity : ℚ
deriving DecidableEq

/-- The pickled per-document record written by
`EmbeddingsManager.process_document_embeddings`. -/
structure EmbeddingsData (Emb : Type) where
  document_id : String
  chunks : List (List Char)
  embeddings : List Emb
  num_chunks : Nat
  embedding_model : String
deriving DecidableEq

/-- Association-list lookup keyed by document id (the file with that
name, when it exists). -/
def alookup {β : Type _} (k : String) : List (String × β) → Option β
  | [] => none
  | p :: ps => if p.1 = k then some p.2 else alookup k ps

/-- The inner loop of `search_similar_chunks` over one document's record
(src/embeddings_manager.py, lines 112-119): for each embedding, compare
the similarity against the threshold; the chunk text is only read when
the threshold test passes, and a missing chunk index raises an
IndexError that the surrounding `except` turns into abandoning the rest
of this record while keeping the hits already appended. -/
def scanChunks {Emb : Type} (cos : Emb → Emb → ℚ) (threshold : ℚ) (qe : Emb)
    (doc_id : String) (chunks : List (List Char)) :
    Nat → List Emb → List ChunkHit
  | _, [] => []
  | i, e :: es =>
    if threshold < cos qe e then
      match chunks.get? i with
      | none => []
      | some c =>
        ⟨doc_id, i, c, cos qe e⟩ :: scanChunks cos threshold qe doc_id chunks (i + 1) es
    else scanChunks cos threshold qe doc_id chunks (i + 1) es

instance : DecidableRel (fun a b : ChunkHit => b.similarity ≤ a.similarity) :=
  fun a b => inferInstanceAs (Decidable (b.similarity ≤ a.similarity))

/-- `EmbeddingsManager.search_similar_chunks(query, top_k)`: embed the
query (a model failure propagates; an empty embedding batch raises),
scan every loadable record, collect hits above the threshold, sort by
similarity descending (Python's stable sort) and truncate to `top_k`. -/
def search_similar_chunks {Emb : Type} (cos : Emb → Emb → ℚ) (threshold : ℚ)
    (encode : List (List Char) → Except String (List Emb))
    (files : List (String × Option (EmbeddingsData Emb)))
    (query : List Char) (top_k : Nat) : Except String (List ChunkHit) :=
  match encode [query] with
  | .error e => .error e
  | .ok [] => .error "IndexError: list index out of range"
  | .ok (qe :: _) =>
    let results := files.foldl
      (fun acc file =>
        match file.2 with
        | none => acc
        | some ed => acc ++ scanChunks cos threshold qe file.1 ed.chunks 0 ed.embeddings)
      []
    .ok ((results.insertionSort (fun a b => b.similarity ≤ a.similarity)).take top_k)

/-- The `analysis` record stored with each catalog document, as consumed
by the search path (string-valued fields). -/
structure AnalysisRecord where
  regulator : String
  document_type : String
  summary : String
deriving DecidableEq

/-- A catalog metadata record as read by `SearchEngine`. -/
structure SearchDoc where
  filename : String
  analysis : AnalysisRecord
  upload_date : Option String
deriving DecidableEq

/-- One per-document aggregate built by `SearchEngine.search_documents`. -/
structure DocumentResult where
  document : SearchDoc
  best_similarity : ℚ
  matching_chunks : List ChunkHit
  total_matches : Nat
deriving DecidableEq

/-- `SearchEngine.load_document_metadata`: returns the catalog record,
or `none` when the file is missing or unreadable. -/
def load_document_metadata (catalog : List (String × SearchDoc))
    (doc_id : String) : Option SearchDoc :=
  alookup doc_id catalog

/-- The update applied to an existing per-document aggregate when a
further chunk of the same document arrives (lines 56-59 of
src/search_engine.py). -/
def updateEntry (c : ChunkHit) (r : DocumentResult) : DocumentResult :=
  { r with
    matching_chunks := r.matching_chunks ++ [c]
    total_matches := r.total_matches + 1
    best_similarity :=
      if r.best_similarity < c.similarity then c.similarity else r.best_similarity }

/-- One step of the grouping loop of `search_documents` (lines 43-59):
dictionary insertion order is modelled by an association list, updated
in place for an existing key and extended at the end for a new one; a
chunk whose document has no catalog record is dropped. -/
def groupStep (catalog : List (String × SearchDoc))
    (acc : List (String × DocumentResult)) (c : ChunkHit) :
    List (String × DocumentResult) :=
  match alookup c.document_id acc with
  | some _ =>
    acc.map (fun p => if p.1 = c.document_id then (p.1, updateEntry c p.2) else p)
  | none =>
    match load_document_metadata catalog c.document_id with
    | none => acc
    | some meta => acc ++ [(c.document_id, ⟨meta, c.similarity, [c], 1⟩)]

/-- The whole grouping pass of `search_documents`. -/
def groupChunks (catalog : List (String × SearchDoc)) (chunks : List ChunkHit) :
    List (String × DocumentResult) :=
  chunks.foldl (groupStep catalog) []

/-- The optional filters accepted by `search_documents`; absent mapping
keys are `none`.  Dates are already-parsed `datetime.date` values,
modelled as naturals. -/
structure Filters where
  regulator : Option String
  document_type : Option String
  date_from : Option Nat
  date_to : Option Nat
deriving DecidableEq

/-- `datetime.fromisoformat(doc_date.replace('Z', '+00:00')).date()`,
with the ISO parser abstracted as `parseDate`. -/
def normalizeDate (parseDate : String → Nat) (ds : String) : Nat :=
  parseDate (ds.replace "Z" "+00:00")

/-- Python `str.lower()`, character-wise. -/
def lower (s : String) : String :=
  ⟨s.data.map Char.toLower⟩

/-- The regulator (lines 80-82) and document-type (lines 85-87) checks
of `_apply_filters`, which share one shape in the Python source:
`if filters.get(key) and filters[key] != 'All'` — so a missing key, an
empty (falsy) string, or the literal (case-sensitive) `'All'` disables
the check — else compare lowercased values. -/
def categoryCheck (o : Option String) (value : String) : Bool :=
  match o with
  | none => true
  | some reg =>
    if reg ≠ "" ∧ reg ≠ "All" then decide (lower value = lower reg)
    else true

/-- `if filters.get('date_from') and doc_date < filters['date_from']`
(line 95): the lower bound passes when absent or satisfied. -/
def lowerBoundOk (parseDate : String → Nat) (fa : Option Nat) (ds : String) : Bool :=
  match fa with
  | none => true
  | some a => decide (a ≤ normalizeDate parseDate ds)

/-- `if filters.get('date_to') and doc_date > filters['date_to']`
(line 97): the upper bound passes when absent or satisfied. -/
def upperBoundOk (parseDate : String → Nat) (fb : Option Nat) (ds : String) : Bool :=
  match fb with
  | none => true
  | some b => decide (normalizeDate parseDate ds ≤ b)

/-- Lines 91-98 of `_apply_filters`: a document with a missing or
falsy (empty) `upload_date` passes; otherwise both present bounds are
compared inclusively against the normalized date. -/
def dateInnerCheck (parseDate : String → Nat) (fa fb : Option Nat) :
    Option String → Bool
  | none => true
  | some ds =>
    if ds = "" then true
    else lowerBoundOk parseDate fa ds && upperBoundOk parseDate fb ds

/-- The date-range check of `_apply_filters` (lines 90-98), entered only
when at least one bound is present. -/
def dateCheck (parseDate : String → Nat) (fa fb : Option Nat)
    (ud : Option String) : Bool :=
  if fa.isSome ∨ fb.isSome then dateInnerCheck parseDate fa fb ud
  else true

/-- The per-document `include` decision of `SearchEngine._apply_filters`
(lines 75-98): the successive `include = False` assignments amount to a
conjunction of the three checks. -/
def includeDoc (parseDate : String → Nat) (f : Filters) (d : SearchDoc) : Bool :=
  categoryCheck f.regulator d.analysis.regulator &&
  categoryCheck f.document_type d.analysis.document_type &&
  dateCheck parseDate f.date_from f.date_to d.upload_date

/-- `SearchEngine._apply_filters`. -/
def apply_filters (parseDate : String → Nat) (f : Filters)
    (results : List (String × DocumentResult)) :
    List (String × DocumentResult) :=
  results.filter (fun p => includeDoc parseDate f p.2.document)

instance : DecidableRel (fun a b : DocumentResult => b.best_similarity ≤ a.best_similarity) :=
  fun a b => inferInstanceAs (Decidable (b.best_similarity ≤ a.best_similarity))

/-- `SearchEngine.search_documents(query, filters)`: over-fetch
`max_results * 3` chunks, group them by document, apply the filters if
any were provided, sort by best similarity descending and truncate to
`max_results`. -/
def search_documents {Emb : Type} (cos : Emb → Emb → ℚ) (threshold : ℚ)
    (encode : List (List Char) → Except String (List Emb))
    (parseDate : String → Nat)
    (embStore : List (String × Option (EmbeddingsData Emb)))
    (catalog : List (String × SearchDoc))
    (max_results : Nat)
    (query : List Char) (filters : Option Filters) :
    Except String (List DocumentResult) :=
  match search_similar_chunks cos threshold encode embStore query (max_results * 3) with
  | .error e => .error e
  | .ok similar =>
    let grouped := groupChunks catalog similar
    let filtered :=
      match filters with
      | none => grouped
      | some f => apply_filters parseDate f grouped
    let results := filtered.map Prod.snd
    .ok ((results.insertionSort
        (fun a b => b.best_similarity ≤ a.best_similarity)).take max_results)

/-- `EmbeddingsManager.process_document_embeddings`: return the cached
record when one exists for the id; otherwise chunk, embed, persist and
return.  The outer `Option` is the fuel-exhaustion marker inherited from
`chunk_text`; the inner `Except` carries an embedding-model failure. -/
def process_document_embeddings {Emb : Type}
    (encode : List (List Char) → Except String (List Emb))
    (cs co : Nat) (model_name : String)
    (store : List (String × EmbeddingsData Emb))
    (doc_id : String) (text : List Char) :
    Option (Except String (EmbeddingsData Emb × List (String × EmbeddingsData Emb))) :=
  match alookup doc_id store with
  | some r => some (.ok (r, store))
  | none =>
    match chunk_text cs co text with
    | none => none
    | some chunks =>
      match encode chunks with
      | .error e => some (.error e)
      | .ok embs =>
        let ed : EmbeddingsData Emb :=
          ⟨doc_id, chunks, embs, chunks.length, model_name⟩
        some (.ok (ed, (doc_id, ed) :: store))

/-! ### System statistics (`SearchEngine.get_system_stats`) -/

/-- A catalog record as read by the statistics scan: `analysis` fields
may be JSON null, and `upload_date` is `none` when the field is missing
or `datetime.fromisoformat` raises (which the bare `except` swallows
after the record was already counted). -/
structure StatsDoc where
  regulator : Option String
  document_type : Option String
  upload_date : Option Nat
deriving DecidableEq

/-- The dictionary returned by `get_system_stats`. -/
structure SystemStats where
  total_documents : Nat
  total_chunks : Nat
  regulators : List String
  document_types : List String
  last_update : Option Nat
deriving DecidableEq

/-- Python `set.add`, on a deterministic list model of a set. -/
def setInsert {α : Type _} [DecidableEq α] (s : List α) (a : α) : List α :=
  if a ∈ s then s else s ++ [a]

/-- The in-flight accumulator of `get_system_stats`. -/
structure StatsAcc where
  total_documents : Nat
  regulators : List (Option String)
  document_types : List (Option String)
  last_update : Option Nat

/-- `if not stats["last_update"] or upload_date > stats["last_update"]`
(line 177): keep the larger timestamp, seeding from `None`. -/
def optMax (o : Option Nat) (t : Nat) : Option Nat :=
  match o with
  | none => some t
  | some m => if m < t then some t else some m

/-- One iteration of the catalog scan of `get_system_stats`
(lines 166-180): an unreadable JSON file contributes nothing; a readable
record is counted and its analysis fields recorded before the date is
parsed, so a record with an unparsable date is still counted. -/
def statsStep (s : StatsAcc) (file : Option StatsDoc) : StatsAcc :=
  match file with
  | none => s
  | some d =>
    let s' : StatsAcc :=
      { total_documents := s.total_documents + 1
        regulators := setInsert s.regulators d.regulator
        document_types := setInsert s.document_types d.document_type
        last_update := s.last_update }
    match d.upload_date with
    | none => s'
    | some t => { s' with last_update := optMax s'.last_update t }

instance : DecidableRel (fun a b : String => a.data ≤ b.data) :=
  fun a b => inferInstanceAs (Decidable (a.data ≤ b.data))

/-- `SearchEngine.get_system_stats()`: scan the catalog directory and the
embeddings directory; unreadable files are skipped; the collected
regulator and document-type sets are filtered of nulls and sorted. -/
def get_system_stats (catalogFiles : List (Option StatsDoc))
    (embFiles : List (Option Nat)) : SystemStats :=
  let acc := catalogFiles.foldl statsStep ⟨0, [], [], none⟩
  let total_chunks :=
    embFiles.foldl (fun n f => match f with | none => n | some k => n + k) 0
  { total_documents := acc.total_documents
    total_chunks := total_chunks
    regulators := (acc.regulators.filterMap id).insertionSort
      (fun a b => a.data ≤ b.data)
    document_types := (acc.document_types.filterMap id).insertionSort
      (fun a b => a.data ≤ b.data)
    last_update := acc.last_update }

/-! ### Document ingestion identity (`DocumentProcessor.process_document`) -/

/-- The metadata record assembled by `process_document` (the analysis
and persistence steps are external to the identity claim). -/
structure ProcessedDoc where
  id : String
  filename : String
  file_type : String
  upload_date : String
  text : List Char
  text_length : Nat
deriving DecidableEq

/-- `DocumentProcessor.process_document` (src/document_processor.py,
lines 98-132), with the md5 hex digest abstracted as `md5hex` and the
wall clock as `now`: empty extracted text aborts; otherwise the id is
the digest of the filename concatenated with the first 100 characters
of the text. -/
def process_document (md5hex : String → String) (now : String)
    (filename : String) (text : List Char) : Option ProcessedDoc :=
  let file_extension := lower ((filename.splitOn ".").getLastD "")
  if text.isEmpty then none
  else
    some
      { id := md5hex (filename ++ String.mk (text.take 100))
        filename := filename
        file_type := file_extension
        upload_date := now
        text := text
        text_length := text.length }

/-! ### Claims C5 and C9 -/

theorem alookup_cons_self {β : Type _} (k : String) (v : β) (l : List (String × β)) :
    alookup k ((k, v) :: l) = some v := by
  simp [alookup]

/-- Claim C5: `process_document_embeddings` is idempotent per document
id.  If one call succeeds with record `r` and store `s`, then any later
call for the same document id — under any chunk configuration, model
name, embedding capability, or even text — returns `r` and leaves the
store at `s` unchanged, because the cached record is returned without
re-chunking or re-embedding. -/
theorem C5_process_document_embeddings_idempotent {Emb : Type}
    (encode1 : List (List Char) → Except String (List Emb))
    (cs1 co1 : Nat) (mn1 : String)
    (store : List (String × EmbeddingsData Emb))
    (doc_id : String) (text : List Char)
    (r : EmbeddingsData Emb) (s : List (String × EmbeddingsData Emb))
    (h : process_document_embeddings encode1 cs1 co1 mn1 store doc_id text =
      some (.ok (r, s)))
    (encode2 : List (List Char) → Except String (List Emb))
    (cs2 co2 : Nat) (mn2 : String) (text2 : List Char) :
    process_document_embeddings encode2 cs2 co2 mn2 s doc_id text2 =
      some (.ok (r, s)) := by
  unfold process_document_embeddings at h ⊢
  cases hl : alookup doc_id store with
  | some r0 =>
    simp only [hl] at h
    injection h with h1
    injection h1 with h2
    injection h2 with hr hs
    subst hr; subst hs
    simp [hl]
  | none =>
    simp only [hl] at h
    cases hct : chunk_text cs1 co1 text with
    | none => simp [hct] at h
    | some chunks =>
      simp only [hct] at h
      cases he : encode1 chunks with
      | error e => simp [he] at h
      | ok embs =>
        simp only [he] at h
        injection h with h1
        injection h1 with h2
        injection h2 with hr hs
        subst hr; subst hs
        simp [alookup_cons_self]

/-- Witness for C5: a store already holding a record for id `"d"`; the
second call (with a different chunk configuration and text) returns the
cached record and the unchanged store. -/
theorem C5_process_document_embeddings_witness :
    process_document_embeddings (fun ts => Except.ok (ts.map (fun _ => (0 : ℚ))))
        7 3 "m2" [("d", ⟨"d", [], [], 0, "m"⟩)] "d" ("yz".toList) =
      some (.ok ((⟨"d", [], [], 0, "m"⟩ : EmbeddingsData ℚ),
        [("d", ⟨"d", [], [], 0, "m"⟩)])) :=
  C5_process_document_embeddings_idempotent
    (fun ts => Except.ok (ts.map (fun _ => (0 : ℚ))))
    4 1 "m" [("d", ⟨"d", [], [], 0, "m"⟩)] "d" ("x".toList)
    ⟨"d", [], [], 0, "m"⟩ [("d", ⟨"d", [], [], 0, "m"⟩)]
    rfl
    (fun ts => Except.ok (ts.map (fun _ => (0 : ℚ)))) 7 3 "m2" ("yz".toList)

/-- Claim C9: the document id assigned by `process_document` is a
deterministic function of the filename and the first 100 characters of
the extracted text: two runs with equal filename and equal 100-character
text prefix assign equal ids (indeed the whole id projection of the
result agrees), whatever the wall-clock timestamps and however the texts
differ beyond the prefix. -/
theorem C9_process_document_id_deterministic
    (md5hex : String → String) (now1 now2 filename : String)
    (text1 text2 : List Char)
    (hpre : text1.take 100 = text2.take 100) :
    (process_document md5hex now1 filename text1).map ProcessedDoc.id =
      (process_document md5hex now2 filename text2).map ProcessedDoc.id := by
  unfold process_document
  cases text1 with
  | nil =>
    cases text2 with
    | nil => rfl
    | cons y ys =>
      have hl := congrArg List.length hpre
      simp only [List.length_take, List.length_nil, List.length_cons] at hl
      omega
  | cons x xs =>
    cases text2 with
    | nil =>
      have hl := congrArg List.length hpre
      simp only [List.length_take, List.length_nil, List.length_cons] at hl
      omega
    | cons y ys =>
      simp [hpre]

/-- Witness for C9: two texts of lengths 101 and 101 sharing their first
100 characters but differing at position 100 receive the same id. -/
theorem C9_process_document_id_witness :
    (process_document (fun s => s) "2024-01-01" "a.txt"
        (List.replicate 101 'a')).map ProcessedDoc.id =
      (process_document (fun s => s) "2024-02-02" "a.txt"
        (List.replicate 100 'a' ++ ['b'])).map ProcessedDoc.id :=
  C9_process_document_id_deterministic (fun s => s) "2024-01-01" "2024-02-02"
    "a.txt" (List.replicate 101 'a') (List.replicate 100 'a' ++ ['b'])
    (by decide)

/-! ### Claims C6 and C10: filter semantics -/

theorem categoryCheck_iff (o : Option String) (value : String) :
    categoryCheck o value = true ↔
      ∀ reg, o = some reg → reg ≠ "" → reg ≠ "All" →
        lower value = lower reg := by
  cases o with
  | none => simp [categoryCheck]
  | some reg =>
    by_cases hc : reg ≠ "" ∧ reg ≠ "All"
    · simp only [categoryCheck, if_pos hc, decide_eq_true_eq]
      constructor
      · rintro h reg' hr _ _
        injection hr with hr'
        subst hr'
        exact h
      · intro h
        exact h reg rfl hc.1 hc.2
    · simp only [categoryCheck, if_neg hc]
      constructor
      · rintro _ reg' hr h1 h2
        injection hr with hr'
        subst hr'
        exact absurd ⟨h1, h2⟩ hc
      · intro _
        trivial

theorem dateCheck_iff (parseDate : String → Nat) (fa fb : Option Nat)
    (ud : Option String) :
    dateCheck parseDate fa fb ud = true ↔
      ((fa.isSome ∨ fb.isSome) →
        ∀ ds, ud = some ds → ds ≠ "" →
          (∀ a, fa = some a → a ≤ normalizeDate parseDate ds) ∧
          (∀ b, fb = some b → normalizeDate parseDate ds ≤ b)) := by
  by_cases hact : fa.isSome ∨ fb.isSome
  · unfold dateCheck
    rw [if_pos hact]
    cases ud with
    | none => simp [dateInnerCheck]
    | some ds =>
      by_cases hds : ds = ""
      · subst hds
        simp [dateInnerCheck]
      · rw [dateInnerCheck, if_neg hds]
        rw [Bool.and_eq_true]
        constructor
        · rintro ⟨ha, hb⟩ _ ds' hds' _
          injection hds' with he
          subst he
          constructor
          · intro a haa
            subst haa
            simpa [lowerBoundOk] using ha
          · intro b hbb
            subst hbb
            simpa [upperBoundOk] using hb
        · intro h
          obtain ⟨ha, hb⟩ := h hact ds rfl hds
          constructor
          · cases fa with
            | none => rfl
            | some a => simpa [lowerBoundOk] using ha a rfl
          · cases fb with
            | none => rfl
            | some b => simpa [upperBoundOk] using hb b rfl
  · unfold dateCheck
    rw [if_neg hact]
    simp [hact]

theorem includeDoc_eq_true_iff (parseDate : String → Nat) (f : Filters)
    (d : SearchDoc) :
    includeDoc parseDate f d = true ↔
      (∀ reg, f.regulator = some reg → reg ≠ "" → reg ≠ "All" →
        lower d.analysis.regulator = lower reg) ∧
      (∀ dt, f.document_type = some dt → dt ≠ "" → dt ≠ "All" →
        lower d.analysis.document_type = lower dt) ∧
      ((f.date_from.isSome ∨ f.date_to.isSome) →
        ∀ ds, d.upload_date = some ds → ds ≠ "" →
          (∀ a, f.date_from = some a → a ≤ normalizeDate parseDate ds) ∧
          (∀ b, f.date_to = some b → normalizeDate parseDate ds ≤ b)) := by
  rw [includeDoc, Bool.and_eq_true, Bool.and_eq_true,
    categoryCheck_iff, categoryCheck_iff, dateCheck_iff, and_assoc]

/-- Counterexample to C6, as stated: the filter value `'All'` is not the
document's regulator `'FDA'` under case-insensitive comparison, so the
claim requires the document to be excluded — yet `_apply_filters`
retains it (the value `'All'` disables the regulator filter). -/
theorem C6_filters_counterexample :
    apply_filters (fun _ => 0) ⟨some "All", none, none, none⟩
        [("dFDA", ⟨⟨"f2", ⟨"FDA", "notice", "s"⟩, none⟩, 1, [], 1⟩)] =
      [("dFDA", ⟨⟨"f2", ⟨"FDA", "notice", "s"⟩, none⟩, 1, [], 1⟩)] ∧
    lower "FDA" ≠ lower "All" := by
  constructor
  · decide
  · decide

/-- Claim C6 as amended: a result survives `_apply_filters` iff it was
present and its document passes each provided check, where a regulator
or document-type filter constrains the document only when its value is
non-empty and differs from the literal `'All'` (matching then being the
case-insensitive comparison of the two values), and the date-range check
constrains only documents that carry a non-empty upload date, comparing
the normalized date inclusively against whichever bounds are present. -/
theorem C6_apply_filters_membership (parseDate : String → Nat) (f : Filters)
    (rs : List (String × DocumentResult)) (p : String × DocumentResult) :
    p ∈ apply_filters parseDate f rs ↔
      p ∈ rs ∧
      (∀ reg, f.regulator = some reg → reg ≠ "" → reg ≠ "All" →
        lower p.2.document.analysis.regulator = lower reg) ∧
      (∀ dt, f.document_type = some dt → dt ≠ "" → dt ≠ "All" →
        lower p.2.document.analysis.document_type = lower dt) ∧
      ((f.date_from.isSome ∨ f.date_to.isSome) →
        ∀ ds, p.2.document.upload_date = some ds → ds ≠ "" →
          (∀ a, f.date_from = some a → a ≤ normalizeDate parseDate ds) ∧
          (∀ b, f.date_to = some b → normalizeDate parseDate ds ≤ b)) := by
  rw [apply_filters, List.mem_filter, includeDoc_eq_true_iff]

/-- Witness for C6 (amended): a document whose regulator matches the
filter value up to case, with an in-range upload date, is retained. -/
theorem C6_apply_filters_witness :
    ("dFDA", (⟨⟨"f2", ⟨"FDA", "notice", "s"⟩, some "2024-01-02"⟩, 1, [], 1⟩ :
        DocumentResult)) ∈
      apply_filters (fun _ => 5) ⟨some "fda", none, some 4, some 6⟩
        [("dFDA", ⟨⟨"f2", ⟨"FDA", "notice", "s"⟩, some "2024-01-02"⟩, 1, [], 1⟩)] := by
  refine (C6_apply_filters_membership (fun _ => 5) ⟨some "fda", none, some 4, some 6⟩
      [("dFDA", ⟨⟨"f2", ⟨"FDA", "notice", "s"⟩, some "2024-01-02"⟩, 1, [], 1⟩)]
      ("dFDA", ⟨⟨"f2", ⟨"FDA", "notice", "s"⟩, some "2024-01-02"⟩, 1, [], 1⟩)).mpr
    ⟨by decide, ?_, ?_, ?_⟩
  · rintro reg hr _ _
    injection hr with hr'
    subst hr'
    decide
  · rintro dt hd
    exact Option.noConfusion hd
  · rintro _ ds hds _
    injection hds with hds'
    subst hds'
    exact ⟨fun a ha => by injection ha with ha'; subst ha'; decide,
      fun b hb => by injection hb with hb'; subst hb'; decide⟩

/-- Counterexample to C10, as stated: the claim says a document whose
regulator is literally `'All'` can never be selected by the exact-match
regulator filter, but the sentinel comparison is case-sensitive while
matching is case-insensitive, so the filter value `'all'` selects
exactly that document. -/
theorem C10_counterexample_case_variant_selects :
    apply_filters (fun _ => 0) ⟨some "all", none, none, none⟩
        [("dAll", ⟨⟨"f1", ⟨"All", "guidance", "s"⟩, none⟩, 1, [], 1⟩),
         ("dFDA", ⟨⟨"f2", ⟨"FDA", "guidance", "s"⟩, none⟩, 1, [], 1⟩)] =
      [("dAll", ⟨⟨"f1", ⟨"All", "guidance", "s"⟩, none⟩, 1, [], 1⟩)] := by
  decide

/-- Claim C10 as amended: a regulator filter whose value is exactly the
string `'All'` (case-sensitively) is treated as no filter at all, so
with that exact value every document passes; but because the sentinel
test is case-sensitive while matching is case-insensitive, any other
non-empty case variant of `'all'` behaves as an ordinary filter that
retains exactly the documents whose regulator lowercases to it — in
particular a document whose regulator is literally `'All'` can still be
selected. -/
theorem C10_all_sentinel (parseDate : String → Nat) :
    (∀ rs : List (String × DocumentResult),
      apply_filters parseDate ⟨some "All", none, none, none⟩ rs = rs) ∧
    (∀ (v : String) (rs : List (String × DocumentResult)), v ≠ "" → v ≠ "All" →
      apply_filters parseDate ⟨some v, none, none, none⟩ rs =
        rs.filter (fun p =>
          decide (lower p.2.document.analysis.regulator = lower v))) := by
  constructor
  · intro rs
    exact List.filter_eq_self.mpr (fun a _ => rfl)
  · intro v rs hv hvA
    rw [apply_filters]
    apply List.filter_congr
    intro p _
    show (categoryCheck (some v) p.2.document.analysis.regulator &&
        categoryCheck none p.2.document.analysis.document_type &&
        dateCheck parseDate none none p.2.document.upload_date) =
      decide (lower p.2.document.analysis.regulator = lower v)
    rw [show categoryCheck none p.2.document.analysis.document_type = true from rfl,
      show dateCheck parseDate none none p.2.document.upload_date = true from rfl,
      Bool.and_true, Bool.and_true]
    show (if v ≠ "" ∧ v ≠ "All" then
        decide (lower p.2.document.analysis.regulator = lower v) else true) =
      decide (lower p.2.document.analysis.regulator = lower v)
    rw [if_pos ⟨hv, hvA⟩]

/-- Witness for C10 (amended): the case-variant filter value `'ALL'`
acts as a real filter. -/
theorem C10_all_sentinel_witness :
    apply_filters (fun _ => 0) ⟨some "ALL", none, none, none⟩
        [("dAll", ⟨⟨"f1", ⟨"All", "guidance", "s"⟩, none⟩, 1, [], 1⟩)] =
      List.filter (fun p =>
          decide (lower p.2.document.analysis.regulator = lower "ALL"))
        [("dAll", ⟨⟨"f1", ⟨"All", "guidance", "s"⟩, none⟩, 1, [], 1⟩)] :=
  (C10_all_sentinel (fun _ => 0)).2 "ALL"
    [("dAll", ⟨⟨"f1", ⟨"All", "guidance", "s"⟩, none⟩, 1, [], 1⟩)]
    (by decide) (by decide)

/-! ### Claim C4: `search_similar_chunks` -/

theorem scanChunks_threshold {Emb : Type} (cos : Emb → Emb → ℚ) (threshold : ℚ)
    (qe : Emb) (doc_id : String) (chunks : List (List Char)) :
    ∀ (es : List Emb) (i : Nat) (c : ChunkHit),
      c ∈ scanChunks cos threshold qe doc_id chunks i es →
      threshold < c.similarity := by
  intro es
  induction es with
  | nil => intro i c hc; exact absurd hc (by simp [scanChunks])
  | cons e es ih =>
    intro i c hc
    rw [scanChunks] at hc
    by_cases hth : threshold < cos qe e
    · rw [if_pos hth] at hc
      cases hg : chunks.get? i with
      | none => rw [hg] at hc; exact absurd hc (by simp)
      | some ch =>
        rw [hg] at hc
        rcases List.mem_cons.mp hc with hc | hc
        · subst hc; exact hth
        · exact ih (i + 1) c hc
    · rw [if_neg hth] at hc
      exact ih (i + 1) c hc

theorem foldHits_threshold {Emb : Type} (cos : Emb → Emb → ℚ) (threshold : ℚ)
    (qe : Emb) :
    ∀ (files : List (String × Option (EmbeddingsData Emb)))
      (acc : List ChunkHit),
      (∀ c ∈ acc, threshold < c.similarity) →
      ∀ c ∈ files.foldl
        (fun acc file =>
          match file.2 with
          | none => acc
          | some ed => acc ++ scanChunks cos threshold qe file.1 ed.chunks 0 ed.embeddings)
        acc,
      threshold < c.similarity := by
  intro files
  induction files with
  | nil => intro acc hacc c hc; exact hacc c hc
  | cons f fs ih =>
    intro acc hacc c hc
    rw [List.foldl_cons] at hc
    cases hf : f.2 with
    | none =>
      rw [hf] at hc
      exact ih acc hacc c hc
    | some ed =>
      rw [hf] at hc
      refine ih _ ?_ c hc
      intro c' hc'
      rcases List.mem_append.mp hc' with hc' | hc'
      · exact hacc c' hc'
      · exact scanChunks_threshold cos threshold qe f.1 ed.chunks ed.embeddings 0 c' hc'

instance : IsTotal ChunkHit (fun a b => b.similarity ≤ a.similarity) :=
  ⟨fun a b => le_total b.similarity a.similarity⟩

instance : IsTrans ChunkHit (fun a b => b.similarity ≤ a.similarity) :=
  ⟨fun _ _ _ h1 h2 => le_trans h2 h1⟩

/-- Claim C4: when `search_similar_chunks` succeeds, every returned
entry's similarity is strictly above the configured threshold, the
returned sequence (merged across all documents) is sorted by similarity
in descending order, and it holds at most `top_k` entries. -/
theorem C4_search_similar_chunks_spec {Emb : Type} (cos : Emb → Emb → ℚ)
    (threshold : ℚ) (encode : List (List Char) → Except String (List Emb))
    (files : List (String × Option (EmbeddingsData Emb)))
    (query : List Char) (top_k : Nat) (l : List ChunkHit)
    (h : search_similar_chunks cos threshold encode files query top_k = .ok l) :
    (∀ c ∈ l, threshold < c.similarity) ∧
    l.Pairwise (fun a b => b.similarity ≤ a.similarity) ∧
    l.length ≤ top_k := by
  unfold search_similar_chunks at h
  cases hq : encode [query] with
  | error e => rw [hq] at h; exact absurd h (by simp)
  | ok qes =>
    rw [hq] at h
    cases qes with
    | nil => exact absurd h (by simp)
    | cons qe rest =>
      simp only [Except.ok.injEq] at h
      subst h
      refine ⟨?_, ?_, ?_⟩
      · intro c hc
        have hc' := (List.take_sublist _ _).subset hc
        rw [List.mem_insertionSort] at hc'
        exact foldHits_threshold cos threshold qe files [] (by simp) c hc'
      · exact List.Pairwise.sublist (List.take_sublist _ _)
          (List.sorted_insertionSort (fun a b : ChunkHit => b.similarity ≤ a.similarity) _)
      · exact List.length_take_le _ _

/-- Witness for C4: one stored document with one chunk whose similarity
1 exceeds the threshold 0. -/
theorem C4_search_similar_chunks_witness :
    (∀ c ∈ [(⟨"d1", 0, ['x'], 1⟩ : ChunkHit)], (0 : ℚ) < c.similarity) ∧
    List.Pairwise (fun a b : ChunkHit => b.similarity ≤ a.similarity)
      [(⟨"d1", 0, ['x'], 1⟩ : ChunkHit)] ∧
    ([(⟨"d1", 0, ['x'], 1⟩ : ChunkHit)]).length ≤ 5 :=
  C4_search_similar_chunks_spec (fun a _ => a) 0
    (fun ts => Except.ok (ts.map (fun _ => (1 : ℚ))))
    [("d1", some ⟨"d1", [['x']], [(1 : ℚ)], 1, "m"⟩)]
    ("q".toList) 5 [⟨"d1", 0, ['x'], 1⟩] rfl

/-! ### Claim C3: `search_documents` aggregates -/

/-- The per-result invariant claimed by C3: `best_similarity` is the
maximum of the similarities of `matching_chunks`. -/
def GoodResult (r : DocumentResult) : Prop :=
  r.best_similarity ∈ r.matching_chunks.map ChunkHit.similarity ∧
  ∀ c ∈ r.matching_chunks, c.similarity ≤ r.best_similarity

theorem updateEntry_good (c : ChunkHit) (r : DocumentResult)
    (hr : GoodResult r) : GoodResult (updateEntry c r) := by
  obtain ⟨hmem, hub⟩ := hr
  unfold GoodResult updateEntry
  simp only [List.map_append, List.map_cons, List.map_nil]
  by_cases hlt : r.best_similarity < c.similarity
  · rw [if_pos hlt]
    constructor
    · exact List.mem_append_right _ (by simp)
    · intro x hx
      rcases List.mem_append.mp hx with hx | hx
      · exact le_of_lt (lt_of_le_of_lt (hub x hx) hlt)
      · rw [List.mem_singleton.mp hx]
  · rw [if_neg hlt]
    constructor
    · exact List.mem_append_left _ hmem
    · intro x hx
      rcases List.mem_append.mp hx with hx | hx
      · exact hub x hx
      · rw [List.mem_singleton.mp hx]
        exact le_of_not_lt hlt

theorem groupStep_good (catalog : List (String × SearchDoc))
    (acc : List (String × DocumentResult)) (c : ChunkHit)
    (hacc : ∀ p ∈ acc, GoodResult p.2) :
    ∀ p ∈ groupStep catalog acc c, GoodResult p.2 := by
  intro p hp
  unfold groupStep at hp
  cases hl : alookup c.document_id acc with
  | some r0 =>
    rw [hl] at hp
    obtain ⟨q, hq, hfq⟩ := List.mem_map.mp hp
    by_cases hk : q.1 = c.document_id
    · rw [if_pos hk] at hfq
      rw [← hfq]
      exact updateEntry_good c q.2 (hacc q hq)
    · rw [if_neg hk] at hfq
      rw [← hfq]
      exact hacc q hq
  | none =>
    rw [hl] at hp
    cases hm : load_document_metadata catalog c.document_id with
    | none =>
      rw [hm] at hp
      exact hacc p hp
    | some meta =>
      rw [hm] at hp
      rcases List.mem_append.mp hp with hp | hp
      · exact hacc p hp
      · rw [List.mem_singleton.mp hp]
        exact ⟨by simp, by simp⟩

theorem groupFold_good (catalog : List (String × SearchDoc)) :
    ∀ (chunks : List ChunkHit) (acc : List (String × DocumentResult)),
      (∀ p ∈ acc, GoodResult p.2) →
      ∀ p ∈ chunks.foldl (groupStep catalog) acc, GoodResult p.2 := by
  intro chunks
  induction chunks with
  | nil => intro acc hacc p hp; exact hacc p hp
  | cons c cs ih =>
    intro acc hacc p hp
    rw [List.foldl_cons] at hp
    exact ih (groupStep catalog acc c) (groupStep_good catalog acc c hacc) p hp

instance : IsTotal DocumentResult (fun a b => b.best_similarity ≤ a.best_similarity) :=
  ⟨fun a b => le_total b.best_similarity a.best_similarity⟩

instance : IsTrans DocumentResult (fun a b => b.best_similarity ≤ a.best_similarity) :=
  ⟨fun _ _ _ h1 h2 => le_trans h2 h1⟩

/-- Claim C3: when `search_documents` succeeds it returns at most
`max_results` results, and in every returned result `best_similarity`
equals the maximum of the similarities of its `matching_chunks` (it is
one of them and bounds them all). -/
theorem C3_search_documents_spec {Emb : Type} (cos : Emb → Emb → ℚ)
    (threshold : ℚ) (encode : List (List Char) → Except String (List Emb))
    (parseDate : String → Nat)
    (embStore : List (String × Option (EmbeddingsData Emb)))
    (catalog : List (String × SearchDoc)) (max_results : Nat)
    (query : List Char) (filters : Option Filters)
    (l : List DocumentResult)
    (h : search_documents cos threshold encode parseDate embStore catalog
      max_results query filters = .ok l) :
    l.length ≤ max_results ∧
    ∀ r ∈ l, r.best_similarity ∈ r.matching_chunks.map ChunkHit.similarity ∧
      ∀ c ∈ r.matching_chunks, c.similarity ≤ r.best_similarity := by
  unfold search_documents at h
  cases hs : search_similar_chunks cos threshold encode embStore query
      (max_results * 3) with
  | error e => rw [hs] at h; exact absurd h (by simp)
  | ok similar =>
    rw [hs] at h
    simp only [Except.ok.injEq] at h
    subst h
    constructor
    · exact List.length_take_le _ _
    · intro r hr
      have hr' := (List.take_sublist _ _).subset hr
      rw [List.mem_insertionSort] at hr'
      obtain ⟨p, hp, hpr⟩ := List.mem_map.mp hr'
      have hgood : GoodResult p.2 := by
        cases filters with
        | none =>
          exact groupFold_good catalog similar [] (by simp) p hp
        | some f =>
          have hp' := (List.mem_filter.mp hp).1
          exact groupFold_good catalog similar [] (by simp) p hp'
      rw [← hpr]
      exact hgood

/-- Witness for C3 at the spec's scenario: three chunks of one document
with similarities 90, 20 and 95 (the spec scenario scaled by 100, so
that the rationals are integral) yield a single result with
`best_similarity = 95` and three matching chunks. -/
theorem C3_search_documents_witness :
    ([(⟨⟨"file1", ⟨"FDA", "guidance", "s"⟩, none⟩, 95,
        [⟨"d1", 2, ['c'], 95⟩, ⟨"d1", 0, ['a'], 90⟩, ⟨"d1", 1, ['b'], 20⟩],
        3⟩ : DocumentResult)]).length ≤ 5 ∧
    ∀ r ∈ [(⟨⟨"file1", ⟨"FDA", "guidance", "s"⟩, none⟩, 95,
        [⟨"d1", 2, ['c'], 95⟩, ⟨"d1", 0, ['a'], 90⟩, ⟨"d1", 1, ['b'], 20⟩],
        3⟩ : DocumentResult)],
      r.best_similarity ∈ r.matching_chunks.map ChunkHit.similarity ∧
      ∀ c ∈ r.matching_chunks, c.similarity ≤ r.best_similarity :=
  C3_search_documents_spec (fun _ b => b) 0
    (fun ts => Except.ok (ts.map (fun _ => (0 : ℚ))))
    (fun _ => 0)
    [("d1", some ⟨"d1", [['a'], ['b'], ['c']], [90, 20, 95], 3, "m"⟩)]
    [("d1", ⟨"file1", ⟨"FDA", "guidance", "s"⟩, none⟩)]
    5 ("q".toList) none
    [⟨⟨"file1", ⟨"FDA", "guidance", "s"⟩, none⟩, 95,
      [⟨"d1", 2, ['c'], 95⟩, ⟨"d1", 0, ['a'], 90⟩, ⟨"d1", 1, ['b'], 20⟩], 3⟩]
    rfl

/-! ### Claim C7: failure handling during search -/

theorem alookup_eq_none {β : Type _} (k : String) :
    ∀ (l : List (String × β)), (∀ p ∈ l, p.1 ≠ k) → alookup k l = none := by
  intro l
  induction l with
  | nil => intro _; rfl
  | cons p ps ih =>
    intro h
    rw [alookup, if_neg (h p (List.mem_cons_self p ps))]
    exact ih (fun q hq => h q (List.mem_cons_of_mem p hq))

theorem foldHits_skip_none {Emb : Type} (cos : Emb → Emb → ℚ) (threshold : ℚ)
    (qe : Emb) :
    ∀ (files : List (String × Option (EmbeddingsData Emb)))
      (acc : List ChunkHit),
      files.foldl
        (fun acc file =>
          match file.2 with
          | none => acc
          | some ed => acc ++ scanChunks cos threshold qe file.1 ed.chunks 0 ed.embeddings)
        acc =
      (files.filter (fun f => f.2.isSome)).foldl
        (fun acc file =>
          match file.2 with
          | none => acc
          | some ed => acc ++ scanChunks cos threshold qe file.1 ed.chunks 0 ed.embeddings)
        acc := by
  intro files
  induction files with
  | nil => intro acc; rfl
  | cons f fs ih =>
    intro acc
    rw [List.foldl_cons, List.filter_cons]
    cases hf : f.2 with
    | none =>
      simp only [Option.isSome_none, Bool.false_eq_true, if_false]
      exact ih acc
    | some ed =>
      simp only [Option.isSome_some, if_true, List.foldl_cons, hf]
      exact ih _

theorem groupStep_keys (catalog : List (String × SearchDoc))
    (acc : List (String × DocumentResult)) (c : ChunkHit)
    (hacc : ∀ p ∈ acc, (load_document_metadata catalog p.1).isSome = true) :
    ∀ p ∈ groupStep catalog acc c,
      (load_document_metadata catalog p.1).isSome = true := by
  intro p hp
  unfold groupStep at hp
  cases hl : alookup c.document_id acc with
  | some r0 =>
    rw [hl] at hp
    obtain ⟨q, hq, hfq⟩ := List.mem_map.mp hp
    by_cases hk : q.1 = c.document_id
    · rw [if_pos hk] at hfq
      rw [← hfq]
      exact hacc q hq
    · rw [if_neg hk] at hfq
      rw [← hfq]
      exact hacc q hq
  | none =>
    rw [hl] at hp
    cases hm : load_document_metadata catalog c.document_id with
    | none =>
      rw [hm] at hp
      exact hacc p hp
    | some meta =>
      rw [hm] at hp
      rcases List.mem_append.mp hp with hp | hp
      · exact hacc p hp
      · rw [List.mem_singleton.mp hp]
        rw [hm]
        rfl

theorem groupFold_drop_nometa (catalog : List (String × SearchDoc)) :
    ∀ (chunks : List ChunkHit) (acc : List (String × DocumentResult)),
      (∀ p ∈ acc, (load_document_metadata catalog p.1).isSome = true) →
      chunks.foldl (groupStep catalog) acc =
        (chunks.filter
          (fun c => (load_document_metadata catalog c.document_id).isSome)).foldl
          (groupStep catalog) acc := by
  intro chunks
  induction chunks with
  | nil => intro acc _; rfl
  | cons c cs ih =>
    intro acc hacc
    rw [List.foldl_cons, List.filter_cons]
    by_cases hm : (load_document_metadata catalog c.document_id).isSome = true
    · rw [if_pos hm, List.foldl_cons]
      exact ih (groupStep catalog acc c) (groupStep_keys catalog acc c hacc)
    · rw [if_neg hm]
      have hstep : groupStep catalog acc c = acc := by
        unfold groupStep
        rw [alookup_eq_none c.document_id acc
          (fun p hp hk => hm (hk ▸ hacc p hp))]
        rw [Option.not_isSome_iff_eq_none.mp hm]
      rw [hstep]
      exact ih acc hacc

/-- Claim C7: (a) files whose cached embedding record fails to load are
simply skipped — the search result equals the result over the loadable
files alone; (b) a matched chunk whose document id has no catalog
metadata contributes nothing to the grouped results; (c) an embedding
model failure while embedding the query propagates as a hard failure of
both `search_similar_chunks` and `search_documents`. -/
theorem C7_soft_and_hard_failures {Emb : Type} (cos : Emb → Emb → ℚ)
    (threshold : ℚ) (encode : List (List Char) → Except String (List Emb))
    (parseDate : String → Nat)
    (files : List (String × Option (EmbeddingsData Emb)))
    (catalog : List (String × SearchDoc))
    (chunks : List ChunkHit) (query : List Char) (top_k : Nat) :
    (search_similar_chunks cos threshold encode files query top_k =
      search_similar_chunks cos threshold encode
        (files.filter (fun f => f.2.isSome)) query top_k) ∧
    (groupChunks catalog chunks =
      groupChunks catalog (chunks.filter
        (fun c => (load_document_metadata catalog c.document_id).isSome))) ∧
    (∀ e, encode [query] = .error e →
      search_similar_chunks cos threshold encode files query top_k = .error e ∧
      ∀ (embStore : List (String × Option (EmbeddingsData Emb)))
        (catalog2 : List (String × SearchDoc))
        (max_results : Nat) (filters : Option Filters),
        search_documents cos threshold encode parseDate embStore catalog2
          max_results query filters = .error e) := by
  refine ⟨?_, ?_, ?_⟩
  · unfold search_similar_chunks
    cases hq : encode [query] with
    | error e => rfl
    | ok qes =>
      cases qes with
      | nil => rfl
      | cons qe rest =>
        exact congrArg
          (fun r : List ChunkHit => Except.ok
            ((r.insertionSort (fun a b => b.similarity ≤ a.similarity)).take top_k))
          (foldHits_skip_none cos threshold qe files [])
  · exact groupFold_drop_nometa catalog chunks []
      (by intro p hp; exact absurd hp (List.not_mem_nil p))
  · intro e he
    have hssc : search_similar_chunks cos threshold encode files query top_k =
        .error e := by
      unfold search_similar_chunks
      rw [he]
    refine ⟨hssc, ?_⟩
    intro embStore catalog2 max_results filters
    unfold search_documents
    have : search_similar_chunks cos threshold encode embStore query
        (max_results * 3) = .error e := by
      unfold search_similar_chunks
      rw [he]
    rw [this]

/-- Witness for C7: a failing embedding model makes the whole search
fail with that error. -/
theorem C7_failures_witness :
    search_documents (fun (a : ℚ) (_ : ℚ) => a) 0
        (fun _ => Except.error "model down") (fun _ => 0) [] [] 5
        ("q".toList) none =
      Except.error "model down" :=
  ((C7_soft_and_hard_failures (fun (a : ℚ) (_ : ℚ) => a) 0
      (fun _ => Except.error "model down") (fun _ => 0) [] [] [] ("q".toList)
      5).2.2 "model down" rfl).2 [] [] 5 none

/-! ### Claim C8: `get_system_stats` -/

theorem statsStep_none (s : StatsAcc) : statsStep s none = s := rfl

theorem statsStep_some_total (s : StatsAcc) (d : StatsDoc) :
    (statsStep s (some d)).total_documents = s.total_documents + 1 := by
  cases hd : d.upload_date <;> simp [statsStep, hd]

theorem statsStep_some_regs (s : StatsAcc) (d : StatsDoc) :
    (statsStep s (some d)).regulators = setInsert s.regulators d.regulator := by
  cases hd : d.upload_date <;> simp [statsStep, hd]

theorem statsStep_some_dtypes (s : StatsAcc) (d : StatsDoc) :
    (statsStep s (some d)).document_types =
      setInsert s.document_types d.document_type := by
  cases hd : d.upload_date <;> simp [statsStep, hd]

theorem statsStep_some_last (s : StatsAcc) (d : StatsDoc) :
    (statsStep s (some d)).last_update =
      (match d.upload_date with
       | none => s.last_update
       | some t => optMax s.last_update t) := by
  cases hd : d.upload_date <;> simp [statsStep, hd]

theorem setInsert_mem {α : Type _} [DecidableEq α] (s : List α) (a x : α) :
    x ∈ setInsert s a ↔ x ∈ s ∨ x = a := by
  unfold setInsert
  by_cases h : a ∈ s
  · rw [if_pos h]
    constructor
    · exact Or.inl
    · rintro (hx | rfl)
      · exact hx
      · exact h
  · rw [if_neg h]
    simp

theorem setInsert_nodup {α : Type _} [DecidableEq α] (s : List α) (a : α)
    (h : s.Nodup) : (setInsert s a).Nodup := by
  unfold setInsert
  by_cases ha : a ∈ s
  · rw [if_pos ha]
    exact h
  · rw [if_neg ha]
    rw [List.nodup_append]
    refine ⟨h, List.nodup_singleton a, ?_⟩
    intro x hx hxa
    rw [List.mem_singleton.mp hxa] at hx
    exact ha hx

theorem statsFold_total :
    ∀ (fs : List (Option StatsDoc)) (s : StatsAcc),
      (fs.foldl statsStep s).total_documents =
        s.total_documents + (fs.filterMap id).length := by
  intro fs
  induction fs with
  | nil => intro s; simp
  | cons f fs ih =>
    intro s
    rw [List.foldl_cons]
    cases f with
    | none =>
      rw [statsStep_none]
      simpa using ih s
    | some d =>
      rw [ih (statsStep s (some d)), statsStep_some_total]
      simp only [List.filterMap_cons, id, List.length_cons]
      omega

theorem statsFold_regs_mem :
    ∀ (fs : List (Option StatsDoc)) (s : StatsAcc) (a : Option String),
      a ∈ (fs.foldl statsStep s).regulators ↔
        a ∈ s.regulators ∨ ∃ d ∈ fs.filterMap id, d.regulator = a := by
  intro fs
  induction fs with
  | nil => intro s a; simp
  | cons f fs ih =>
    intro s a
    rw [List.foldl_cons]
    cases f with
    | none =>
      rw [statsStep_none, ih s a]
      simp
    | some d =>
      rw [ih _ a, statsStep_some_regs, setInsert_mem]
      simp only [List.filterMap_cons, id, List.mem_cons]
      constructor
      · rintro (⟨h | h⟩ | ⟨d', hd', hr⟩)
        · exact Or.inl h
        · exact Or.inr ⟨d, Or.inl rfl, h.symm⟩
        · exact Or.inr ⟨d', Or.inr hd', hr⟩
      · rintro (h | ⟨d', hd' | hd', hr⟩)
        · exact Or.inl (Or.inl h)
        · subst hd'
          exact Or.inl (Or.inr hr.symm)
        · exact Or.inr ⟨d', hd', hr⟩

theorem statsFold_dtypes_mem :
    ∀ (fs : List (Option StatsDoc)) (s : StatsAcc) (a : Option String),
      a ∈ (fs.foldl statsStep s).document_types ↔
        a ∈ s.document_types ∨ ∃ d ∈ fs.filterMap id, d.document_type = a := by
  intro fs
  induction fs with
  | nil => intro s a; simp
  | cons f fs ih =>
    intro s a
    rw [List.foldl_cons]
    cases f with
    | none =>
      rw [statsStep_none, ih s a]
      simp
    | some d =>
      rw [ih _ a, statsStep_some_dtypes, setInsert_mem]
      simp only [List.filterMap_cons, id, List.mem_cons]
      constructor
      · rintro (⟨h | h⟩ | ⟨d', hd', hr⟩)
        · exact Or.inl h
        · exact Or.inr ⟨d, Or.inl rfl, h.symm⟩
        · exact Or.inr ⟨d', Or.inr hd', hr⟩
      · rintro (h | ⟨d', hd' | hd', hr⟩)
        · exact Or.inl (Or.inl h)
        · subst hd'
          exact Or.inl (Or.inr hr.symm)
        · exact Or.inr ⟨d', hd', hr⟩

theorem statsFold_regs_nodup :
    ∀ (fs : List (Option StatsDoc)) (s : StatsAcc),
      s.regulators.Nodup → (fs.foldl statsStep s).regulators.Nodup := by
  intro fs
  induction fs with
  | nil => intro s h; exact h
  | cons f fs ih =>
    intro s h
    rw [List.foldl_cons]
    cases f with
    | none => rw [statsStep_none]; exact ih s h
    | some d =>
      refine ih _ ?_
      rw [statsStep_some_regs]
      exact setInsert_nodup _ _ h

theorem statsFold_dtypes_nodup :
    ∀ (fs : List (Option StatsDoc)) (s : StatsAcc),
      s.document_types.Nodup → (fs.foldl statsStep s).document_types.Nodup := by
  intro fs
  induction fs with
  | nil => intro s h; exact h
  | cons f fs ih =>
    intro s h
    rw [List.foldl_cons]
    cases f with
    | none => rw [statsStep_none]; exact ih s h
    | some d =>
      refine ih _ ?_
      rw [statsStep_some_dtypes]
      exact setInsert_nodup _ _ h

theorem statsFold_last :
    ∀ (fs : List (Option StatsDoc)) (s : StatsAcc),
      (fs.foldl statsStep s).last_update =
        ((fs.filterMap id).filterMap StatsDoc.upload_date).foldl optMax
          s.last_update := by
  intro fs
  induction fs with
  | nil => intro s; rfl
  | cons f fs ih =>
    intro s
    rw [List.foldl_cons]
    cases f with
    | none =>
      rw [statsStep_none]
      simpa using ih s
    | some d =>
      rw [ih (statsStep s (some d)), statsStep_some_last]
      cases hd : d.upload_date with
      | none => simp [List.filterMap_cons, hd]
      | some t => simp [List.filterMap_cons, hd, List.foldl_cons]

theorem optMax_spec (o : Option Nat) (t : Nat) :
    ∃ y, optMax o t = some y ∧ t ≤ y ∧ (∀ x, o = some x → x ≤ y) ∧
      (o = some y ∨ y = t) := by
  cases o with
  | none => exact ⟨t, rfl, le_refl t, by simp, Or.inr rfl⟩
  | some m =>
    by_cases h : m < t
    · refine ⟨t, by simp [optMax, h], le_refl t, ?_, Or.inr rfl⟩
      rintro x hx
      injection hx with hx
      subst hx
      omega
    · refine ⟨m, by simp [optMax, h], by omega, ?_, Or.inl rfl⟩
      rintro x hx
      injection hx with hx
      subst hx
      exact le_refl m

theorem foldl_optMax_some :
    ∀ (ds : List Nat) (k : Nat), ∃ m, ds.foldl optMax (some k) = some m := by
  intro ds
  induction ds with
  | nil => intro k; exact ⟨k, rfl⟩
  | cons d ds ih =>
    intro k
    obtain ⟨y, hy, _, _, _⟩ := optMax_spec (some k) d
    rw [List.foldl_cons, hy]
    exact ih y

theorem foldl_optMax_char :
    ∀ (ds : List Nat) (o : Option Nat) (m : Nat),
      ds.foldl optMax o = some m →
      (o = some m ∨ m ∈ ds) ∧ (∀ x, o = some x → x ≤ m) ∧
      (∀ x ∈ ds, x ≤ m) := by
  intro ds
  induction ds with
  | nil =>
    intro o m h
    refine ⟨Or.inl h, ?_, by simp⟩
    intro x hx
    have ho : o = some m := h
    rw [ho] at hx
    injection hx with hx
    omega
  | cons d ds ih =>
    intro o m h
    rw [List.foldl_cons] at h
    obtain ⟨y, hy, hdy, hoy, hcase⟩ := optMax_spec o d
    rw [hy] at h
    obtain ⟨hm1, hm2, hm3⟩ := ih (some y) m h
    have hym : y ≤ m := hm2 y rfl
    refine ⟨?_, ?_, ?_⟩
    · rcases hm1 with h1 | h1
      · injection h1 with h1
        subst h1
        rcases hcase with hc | hc
        · exact Or.inl hc
        · subst hc
          exact Or.inr (List.mem_cons_self _ _)
      · exact Or.inr (List.mem_cons_of_mem d h1)
    · intro x hx
      exact le_trans (hoy x hx) hym
    · intro x hx
      rcases List.mem_cons.mp hx with hx | hx
      · subst hx
        exact le_trans hdy hym
      · exact hm3 x hx

theorem foldl_optMax_none_eq_some_iff (ds : List Nat) (m : Nat) :
    ds.foldl optMax none = some m ↔ (m ∈ ds ∧ ∀ x ∈ ds, x ≤ m) := by
  constructor
  · intro h
    obtain ⟨h1, _, h3⟩ := foldl_optMax_char ds none m h
    rcases h1 with h1 | h1
    · exact absurd h1 (by simp)
    · exact ⟨h1, h3⟩
  · rintro ⟨hm, hub⟩
    cases ds with
    | nil => exact absurd hm (List.not_mem_nil m)
    | cons d ds' =>
      obtain ⟨m', hm'⟩ := foldl_optMax_some ds' d
      have hfull : (d :: ds').foldl optMax none = some m' := by
        rw [List.foldl_cons]
        exact hm'
      obtain ⟨h1, _, h3⟩ := foldl_optMax_char (d :: ds') none m' hfull
      have hmem' : m' ∈ d :: ds' := by
        rcases h1 with h1 | h1
        · exact absurd h1 (by simp)
        · exact h1
      have : m' = m := le_antisymm (hub m' hmem') (h3 m hm)
      rw [hfull, this]

theorem foldl_optMax_none_eq_none_iff (ds : List Nat) :
    ds.foldl optMax none = none ↔ ds = [] := by
  constructor
  · intro h
    cases ds with
    | nil => rfl
    | cons d ds' =>
      obtain ⟨m', hm'⟩ := foldl_optMax_some ds' d
      rw [List.foldl_cons] at h
      rw [show optMax none d = some d from rfl] at h
      rw [hm'] at h
      exact absurd h (by simp)
  · rintro rfl
    rfl

instance : IsTotal String (fun a b => a.data ≤ b.data) :=
  ⟨fun a b => le_total a.data b.data⟩

instance : IsTrans String (fun a b => a.data ≤ b.data) :=
  ⟨fun _ _ _ => le_trans⟩

/-- Claim C8: `get_system_stats` counts exactly the readable catalog
records; its `regulators` and `document_types` are sorted, duplicate-free
sequences holding exactly the non-null values found among readable
records; `last_update` is `some m` exactly when `m` is the maximum
parsed upload timestamp (and `none` exactly when no timestamp parses);
and on the spec scenario of three documents with regulators
FDA, FDA, OSHA it returns `regulators = ["FDA", "OSHA"]` and
`total_documents = 3`. -/
theorem C8_get_system_stats_spec (catalogFiles : List (Option StatsDoc))
    (embFiles : List (Option Nat)) :
    (get_system_stats catalogFiles embFiles).total_documents =
      (catalogFiles.filterMap id).length ∧
    (get_system_stats catalogFiles embFiles).regulators.Pairwise
      (fun a b => a.data ≤ b.data) ∧
    (get_system_stats catalogFiles embFiles).regulators.Nodup ∧
    (∀ a : String, a ∈ (get_system_stats catalogFiles embFiles).regulators ↔
      ∃ d ∈ catalogFiles.filterMap id, d.regulator = some a) ∧
    (get_system_stats catalogFiles embFiles).document_types.Pairwise
      (fun a b => a.data ≤ b.data) ∧
    (get_system_stats catalogFiles embFiles).document_types.Nodup ∧
    (∀ a : String, a ∈ (get_system_stats catalogFiles embFiles).document_types ↔
      ∃ d ∈ catalogFiles.filterMap id, d.document_type = some a) ∧
    (∀ m : Nat, (get_system_stats catalogFiles embFiles).last_update = some m ↔
      (m ∈ (catalogFiles.filterMap id).filterMap StatsDoc.upload_date ∧
       ∀ x ∈ (catalogFiles.filterMap id).filterMap StatsDoc.upload_date, x ≤ m)) ∧
    ((get_system_stats catalogFiles embFiles).last_update = none ↔
      (catalogFiles.filterMap id).filterMap StatsDoc.upload_date = []) ∧
    ((get_system_stats [some ⟨some "FDA", some "g", none⟩,
        some ⟨some "FDA", some "g", none⟩,
        some ⟨some "OSHA", some "g", none⟩] []).regulators = ["FDA", "OSHA"] ∧
     (get_system_stats [some ⟨some "FDA", some "g", none⟩,
        some ⟨some "FDA", some "g", none⟩,
        some ⟨some "OSHA", some "g", none⟩] []).total_documents = 3) := by
  refine ⟨?_, ?_, ?_, ?_, ?_, ?_, ?_, ?_, ?_, ?_⟩
  · show (catalogFiles.foldl statsStep ⟨0, [], [], none⟩).total_documents =
      (catalogFiles.filterMap id).length
    rw [statsFold_total]
    simp
  · exact List.sorted_insertionSort (fun a b : String => a.data ≤ b.data) _
  · show (((catalogFiles.foldl statsStep
        ⟨0, [], [], none⟩).regulators.filterMap id).insertionSort
        (fun a b => a.data ≤ b.data)).Nodup
    rw [(List.perm_insertionSort (fun a b : String => a.data ≤ b.data) _).nodup_iff]
    refine List.Nodup.filterMap ?_ (statsFold_regs_nodup catalogFiles _ (by simp))
    intro a a' b hb hb'
    rw [Option.mem_def, id] at hb hb'
    rw [hb, hb']
  · intro a
    show a ∈ ((catalogFiles.foldl statsStep
        ⟨0, [], [], none⟩).regulators.filterMap id).insertionSort
        (fun a b => a.data ≤ b.data) ↔ _
    rw [List.mem_insertionSort, List.mem_filterMap]
    constructor
    · rintro ⟨o, ho, hoa⟩
      rw [id] at hoa
      subst hoa
      rcases (statsFold_regs_mem catalogFiles _ (some a)).mp ho with h | h
      · exact absurd h (by simp)
      · exact h
    · intro h
      exact ⟨some a, (statsFold_regs_mem catalogFiles _ (some a)).mpr (Or.inr h), rfl⟩
  · exact List.sorted_insertionSort (fun a b : String => a.data ≤ b.data) _
  · show (((catalogFiles.foldl statsStep
        ⟨0, [], [], none⟩).document_types.filterMap id).insertionSort
        (fun a b => a.data ≤ b.data)).Nodup
    rw [(List.perm_insertionSort (fun a b : String => a.data ≤ b.data) _).nodup_iff]
    refine List.Nodup.filterMap ?_ (statsFold_dtypes_nodup catalogFiles _ (by simp))
    intro a a' b hb hb'
    rw [Option.mem_def, id] at hb hb'
    rw [hb, hb']
  · intro a
    show a ∈ ((catalogFiles.foldl statsStep
        ⟨0, [], [], none⟩).document_types.filterMap id).insertionSort
        (fun a b => a.data ≤ b.data) ↔ _
    rw [List.mem_insertionSort, List.mem_filterMap]
    constructor
    · rintro ⟨o, ho, hoa⟩
      rw [id] at hoa
      subst hoa
      rcases (statsFold_dtypes_mem catalogFiles _ (some a)).mp ho with h | h
      · exact absurd h (by simp)
      · exact h
    · intro h
      exact ⟨some a, (statsFold_dtypes_mem catalogFiles _ (some a)).mpr (Or.inr h), rfl⟩
  · intro m
    show (catalogFiles.foldl statsStep ⟨0, [], [], none⟩).last_update = some m ↔ _
    rw [statsFold_last]
    exact foldl_optMax_none_eq_some_iff _ m
  · show (catalogFiles.foldl statsStep ⟨0, [], [], none⟩).last_update = none ↔ _
    rw [statsFold_last]
    exact foldl_optMax_none_eq_none_iff _
  · constructor
    · decide
    · decide

end RegSearch
